import Mathlib

/-!
Verification of the epserde serialization core against its specification.

The development shallowly embeds the (de)serialization protocol of the
repository: byte streams are lists of naturals (each byte < 256), machine
integers are naturals reduced modulo 2^(8·w), positioned writers and readers
are explicit state passing, and fallible code returns an explicit result type
distinguishing successful values, `DeserializeError` results, and panics.

Where a definition models code of the repository that is not present under
`src/` (the positioned-I/O glue `ser_impl.rs`, `ser_writers.rs`,
`read_with_pos.rs`, `slice_with_pos.rs`, and the constants of `lib.rs`),
its doc comment starts with `Modelled from the spec:` and follows the
specification text (§4.3–§4.5, §6.1).
-/

namespace Epserde

/-- Modelled from the spec: `pad_align_to(pos, align)` — the number of zero
bytes emitted so that `pos % alignment == 0` (spec §4.3, `WriterWithPos.pad_to`). -/
def padTo (pos a : Nat) : Nat := (a - pos % a) % a

/-- Little-endian encoding of a `w`-byte machine integer
(`to_ne_bytes` of `src/epserde/src/impls/prim.rs` on the little-endian
native platform the spec fixes). -/
def byteEncLE : Nat → Nat → List Nat
  | 0, _ => []
  | w + 1, v => v % 256 :: byteEncLE w (v / 256)

/-- Little-endian decoding of a byte list (`from_ne_bytes` of
`src/epserde/src/impls/prim.rs`). -/
def byteDecLE : List Nat → Nat
  | [] => 0
  | b :: bs => b + 256 * byteDecLE bs

/-- The error type of `src/epserde/src/des/mod.rs` (`DeserializeError`).
Type names are carried as byte lists. -/
inductive DErr : Type where
  | ReadError : DErr
  | EndiannessError : DErr
  | AlignmentError : DErr
  | MajorVersionMismatch (v : Nat) : DErr
  | MinorVersionMismatch (v : Nat) : DErr
  | UsizeSizeMismatch (v : Nat) : DErr
  | MagicCookieError (m : Nat) : DErr
  | InvalidTag (t : Nat) : DErr
  | WrongTypeHash (gotTypeName expectedTypeName : List Nat) (expected got : Nat) : DErr
  | WrongTypeReprHash (gotTypeName expectedTypeName : List Nat) (expected got : Nat) : DErr
deriving DecidableEq

/-- Outcome of running fallible Rust code: a value, a returned
`DeserializeError`, or a panic (out-of-bounds slicing, arithmetic overflow,
`unwrap` failure). -/
inductive PRes (α : Type) : Type where
  | ok (a : α) : PRes α
  | err (e : DErr) : PRes α
  | panicked : PRes α
deriving DecidableEq

/-- Sequencing of fallible steps: errors and panics short-circuit. -/
def PRes.bind {α β : Type} : PRes α → (α → PRes β) → PRes β
  | .ok a, f => f a
  | .err e, _ => .err e
  | .panicked, _ => .panicked

@[simp] theorem PRes.bind_ok {α β : Type} (a : α) (f : α → PRes β) :
    PRes.bind (.ok a) f = f a := rfl

@[simp] theorem PRes.bind_err {α β : Type} (e : DErr) (f : α → PRes β) :
    PRes.bind (.err e) f = .err e := rfl

@[simp] theorem PRes.bind_panicked {α β : Type} (f : α → PRes β) :
    PRes.bind (.panicked : PRes α) f = .panicked := rfl

/-- 2^64, the modulus of 64-bit machine arithmetic and the `usize` range of
the 64-bit platform fixed by the model. -/
def TWO64 : Nat := 2 ^ 64

/-- The universe of serializable types the claims quantify over: fixed-width
primitives (`w` bytes wide, alignment `w`), `String`, `Option<T>`, `Vec<T>`,
and two-field derived deep structs (nesting `pair` yields arbitrary derived
structs serialized field by field in declaration order). -/
inductive Ty : Type where
  | prim (w : Nat) : Ty
  | str : Ty
  | opt (t : Ty) : Ty
  | seq (t : Ty) : Ty
  | pair (a b : Ty) : Ty
deriving DecidableEq

/-- Values of the embedded types. Sequences are encoded as `vcons` chains
ending in `vnil` so that all recursion below is structural. -/
inductive Val : Type where
  | vprim (v : Nat) : Val
  | vstr (bytes : List Nat) : Val
  | vnone : Val
  | vsome (v : Val) : Val
  | vnil : Val
  | vcons (hd tl : Val) : Val
  | vpair (a b : Val) : Val
deriving DecidableEq

/-- Length of a `vcons` chain. -/
def seqLen : Val → Nat
  | .vcons _ tl => seqLen tl + 1
  | _ => 0

/-- `IS_ZERO_COPY` dispatch of the container implementations: primitives are
zero-copy (`src/epserde/src/impls/prim.rs`, `IS_ZERO_COPY = true`), while
`String`, `Option`, `Vec` and derived deep structs are not; for a zero-copy
element type this returns its width. -/
def zeroWidth : Ty → Option Nat
  | .prim w => some w
  | _ => none

/-- `core::mem::align_of` of the Rust type denoted by a `Ty`: a `w`-byte
primitive is `w`-aligned, `String` and `Vec` are pointer-aligned (8 on the
fixed 64-bit platform), `Option<T>` is aligned as its payload, a struct as
the maximum of its fields. -/
def alignTy : Ty → Nat
  | .prim w => w
  | .str => 8
  | .opt t => alignTy t
  | .seq _ => 8
  | .pair a b => max (alignTy a) (alignTy b)

/-- Type-level sanity: every primitive width in the type is positive
(no zero-sized machine integers). -/
def tyWF : Ty → Bool
  | .prim w => decide (0 < w)
  | .str => true
  | .opt t => tyWF t
  | .seq t => tyWF t
  | .pair a b => tyWF a && tyWF b

/-- One step of the UTF-8 acceptance automaton: state `0` accepts, states
`1`–`7` await continuation bytes (with the restricted ranges of RFC 3629
after `E0`, `ED`, `F0`, `F4`), state `8` rejects. -/
def utf8Step (s b : Nat) : Nat :=
  if s = 0 then
    if b ≤ 0x7F then 0
    else if 0xC2 ≤ b && b ≤ 0xDF then 1
    else if b = 0xE0 then 2
    else if b = 0xED then 3
    else if (0xE1 ≤ b && b ≤ 0xEC) || b = 0xEE || b = 0xEF then 4
    else if b = 0xF0 then 5
    else if 0xF1 ≤ b && b ≤ 0xF3 then 6
    else if b = 0xF4 then 7
    else 8
  else if s = 1 then (if 0x80 ≤ b && b ≤ 0xBF then 0 else 8)
  else if s = 2 then (if 0xA0 ≤ b && b ≤ 0xBF then 1 else 8)
  else if s = 3 then (if 0x80 ≤ b && b ≤ 0x9F then 1 else 8)
  else if s = 4 then (if 0x80 ≤ b && b ≤ 0xBF then 1 else 8)
  else if s = 5 then (if 0x90 ≤ b && b ≤ 0xBF then 4 else 8)
  else if s = 6 then (if 0x80 ≤ b && b ≤ 0xBF then 4 else 8)
  else if s = 7 then (if 0x80 ≤ b && b ≤ 0x8F then 4 else 8)
  else 8

/-- Run the UTF-8 automaton over a byte list. -/
def utf8Run : Nat → List Nat → Nat
  | s, [] => s
  | s, b :: bs => utf8Run (utf8Step s b) bs

/-- RFC 3629 UTF-8 validity of a byte list, as checked by Rust
`String::from_utf8`: the automaton consumes every byte and ends in the
accepting state. -/
def validUtf8 (l : List Nat) : Bool := decide (utf8Run 0 l = 0)

/-- Helper for well-formedness of a `vcons` chain whose elements all satisfy
`p`. -/
def wfChain (p : Val → Bool) : Val → Bool
  | .vnil => true
  | .vcons hd tl => p hd && wfChain p tl
  | _ => false

/-- Representability of a value at a type: primitive values fit their width,
string bytes are bytes forming valid UTF-8 (a Rust `String` holds valid
UTF-8 by construction), lengths fit in `usize`, and shapes match. -/
def wfVal : Ty → Val → Bool
  | .prim w, v =>
    match v with
    | .vprim x => decide (x < 256 ^ w)
    | _ => false
  | .str, v =>
    match v with
    | .vstr bs => decide (bs.length < TWO64) && bs.all (fun b => decide (b < 256)) && validUtf8 bs
    | _ => false
  | .opt t, v =>
    match v with
    | .vnone => true
    | .vsome x => wfVal t x
    | _ => false
  | .seq t, v => decide (seqLen v < TWO64) && wfChain (wfVal t) v
  | .pair a b, v =>
    match v with
    | .vpair x y => wfVal a x && wfVal b y
    | _ => false

/-- Modelled from the spec: one record of the `Schema` built by the
`SchemaWriter` decorator (spec §4.3, §3): the byte offset at which a field
begins (after its padding), its size in bytes, and the alignment of its
type. -/
structure FieldEntry : Type where
  offset : Nat
  size : Nat
  align : Nat
deriving DecidableEq

/-- Modelled from the spec: writing one primitive leaf of width `w` at
stream position `pos` — the writer emits zero bytes until the position is a
multiple of the leaf's alignment, then the little-endian bytes
(spec §4.4: each element is preceded by its own alignment padding;
the byte image is `to_ne_bytes` from `src/epserde/src/impls/prim.rs`).
Returns the emitted bytes and the schema record. -/
def putPrim (w v pos : Nat) : List Nat × List FieldEntry :=
  (List.replicate (padTo pos w) 0 ++ byteEncLE w v,
   [⟨pos + padTo pos w, w, w⟩])

/-- The contiguous byte image of a chain of primitive values of width `w`,
as emitted in bulk by `write_slice_zero` for a slice of zero-copy
elements. -/
def bulkBytes (w : Nat) : Val → List Nat
  | .vcons hd tl =>
    (match hd with
     | .vprim x => byteEncLE w x
     | _ => []) ++ bulkBytes w tl
  | _ => []

/-- Serialize the elements of a `vcons` chain one after the other with the
element serializer `f`, threading the stream position. -/
def serWith (f : Val → Nat → List Nat × List FieldEntry) : Val → Nat → List Nat × List FieldEntry
  | .vcons hd tl, pos =>
    let r := f hd pos
    let rs := serWith f tl (pos + r.1.length)
    (r.1 ++ rs.1, r.2 ++ rs.2)
  | _, _ => ([], [])

/-- The recursive body serializer (`SerializeInner::_serialize_inner`
composed over the universe).
Primitives: `src/epserde/src/impls/prim.rs` (native-endian bytes, padded to
their own alignment per spec §4.4).
Strings: a `usize` length followed by the raw bytes (sequence of zero-copy
`u8`, spec §4.4).
`Option`: a one-byte tag `0`/`1` followed by the payload
(`src/epserde/src/impls/prim.rs`, `SerializeInner for Option<T>`).
Sequences: `usize` length, then for zero-copy elements the bulk slice after
padding to the element alignment (`write_slice_zero`,
`src/epserde/src/impls/vec.rs`), and for deep elements the elements in
order.
Structs: fields in declaration order (`src/epserde-derive/src/lib.rs`,
non-zero-copy branch). Mismatched shapes yield nothing and are excluded by
`wfVal`. -/
def serS : Ty → Val → Nat → List Nat × List FieldEntry
  | .prim w, v, pos =>
    match v with
    | .vprim x => putPrim w x pos
    | _ => ([], [])
  | .str, v, pos =>
    match v with
    | .vstr bs =>
      let lp := putPrim 8 bs.length pos
      (lp.1 ++ bs, lp.2 ++ [⟨pos + lp.1.length, bs.length, 1⟩])
    | _ => ([], [])
  | .opt t, v, pos =>
    match v with
    | .vnone => ([0], [⟨pos, 1, 1⟩])
    | .vsome x =>
      let r := serS t x (pos + 1)
      (1 :: r.1, ⟨pos, 1, 1⟩ :: r.2)
    | _ => ([], [])
  | .seq t, v, pos =>
    let lp := putPrim 8 (seqLen v) pos
    match zeroWidth t with
    | some w =>
      let k := padTo (pos + lp.1.length) w
      let bulk := bulkBytes w v
      (lp.1 ++ List.replicate k 0 ++ bulk,
       lp.2 ++ [⟨pos + lp.1.length + k, bulk.length, w⟩])
    | none =>
      let r := serWith (serS t) v (pos + lp.1.length)
      (lp.1 ++ r.1, lp.2 ++ r.2)
  | .pair a b, v, pos =>
    match v with
    | .vpair x y =>
      let ra := serS a x pos
      let rb := serS b y (pos + ra.1.length)
      (ra.1 ++ rb.1, ra.2 ++ rb.2)
    | _ => ([], [])

/-- Modelled from the spec: the constant 64-bit magic cookie of `lib.rs`
(spec §6.1: "A constant 64-bit value. Writer stores it in native byte
order"), given here by its little-endian byte image. -/
def MAGIC_BYTES : List Nat := [101, 112, 115, 101, 114, 100, 101, 32]

/-- The magic cookie read as a native-endian 64-bit integer. -/
def MAGIC : Nat := byteDecLE MAGIC_BYTES

/-- The magic cookie as read on a machine of the opposite endianness
(`MAGIC_REV` of `lib.rs`): the byte-reversed image. -/
def MAGIC_REV : Nat := byteDecLE MAGIC_BYTES.reverse

/-- Modelled from the spec: the library's `(major, minor)` version pair
(`VERSION` of `lib.rs`). -/
def VERSION : Nat × Nat := (1, 1)

/-- `core::mem::size_of::<usize>()` on the fixed 64-bit platform. -/
def usizeBytes : Nat := 8

/-- Modelled from the spec: `core::any::type_name` is an informational
UTF-8 string (spec §6.1, "informational UTF-8 bytes"); the model derives an
ASCII name from the type structure. -/
def typeNameBytes : Ty → List Nat
  | .prim w => 117 :: List.replicate w 105
  | .str => [83, 116, 114]
  | .opt t => 79 :: 112 :: 116 :: typeNameBytes t
  | .seq t => 86 :: 101 :: 99 :: typeNameBytes t
  | .pair a b => 80 :: (typeNameBytes a ++ typeNameBytes b)

/-- Modelled from the spec: the 64-bit structural fingerprint — a
deterministic stand-in for the xxh3 hash of the `type_hash` token stream
(spec §4.2: "a 64-bit non-cryptographic algorithm"); only determinism and
the 64-bit range are relied upon. -/
def typeHashV : Ty → Nat
  | .prim w => (1000 + w) % TWO64
  | .str => 2 % TWO64
  | .opt t => (3 + 31 * typeHashV t) % TWO64
  | .seq t => (5 + 37 * typeHashV t) % TWO64
  | .pair a b => (7 + 41 * typeHashV a + 43 * typeHashV b) % TWO64

/-- Modelled from the spec: the 64-bit representation fingerprint — a
deterministic stand-in for the xxh3 hash of the `type_repr_hash` token
stream (alignment and size contributions, spec §4.2,
`src/epserde/src/impls/prim.rs`). -/
def typeReprHashV : Ty → Nat
  | .prim w => (2000 + 53 * w) % TWO64
  | .str => 11 % TWO64
  | .opt t => (13 + 59 * typeReprHashV t) % TWO64
  | .seq t => (17 + 61 * typeReprHashV t) % TWO64
  | .pair a b => (19 + 67 * typeReprHashV a + 71 * typeReprHashV b) % TWO64

/-- `Serialize::serialize_on_field_write` with the `SchemaWriter`
(`src/epserde/src/ser/mod.rs`, lines 73–90): the header fields MAGIC,
VERSION_MAJOR, VERSION_MINOR, USIZE_SIZE (written as a `u16`, line 77),
TYPE_HASH, TYPE_REPR_HASH, TYPE_NAME (a length-prefixed string), then the
root value through `add_field_align`, which pads to the alignment of the
root type (spec §4.3). Returns the byte stream and the schema. -/
def serializeWithSchema (t : Ty) (v : Val) : List Nat × List FieldEntry :=
  let f1 := putPrim 8 MAGIC 0
  let pos1 := f1.1.length
  let f2 := putPrim 2 VERSION.1 pos1
  let pos2 := pos1 + f2.1.length
  let f3 := putPrim 2 VERSION.2 pos2
  let pos3 := pos2 + f3.1.length
  let f4 := putPrim 2 usizeBytes pos3
  let pos4 := pos3 + f4.1.length
  let f5 := putPrim 8 (typeHashV t) pos4
  let pos5 := pos4 + f5.1.length
  let f6 := putPrim 8 (typeReprHashV t) pos5
  let pos6 := pos5 + f6.1.length
  let nb := typeNameBytes t
  let f7 := putPrim 8 nb.length pos6
  let pos7 := pos6 + f7.1.length
  let pos8 := pos7 + nb.length
  let kr := padTo pos8 (alignTy t)
  let root := serS t v (pos8 + kr)
  (f1.1 ++ f2.1 ++ f3.1 ++ f4.1 ++ f5.1 ++ f6.1 ++ f7.1 ++ nb ++
     List.replicate kr 0 ++ root.1,
   f1.2 ++ f2.2 ++ f3.2 ++ f4.2 ++ f5.2 ++ f6.2 ++ f7.2 ++
     [⟨pos7, nb.length, 1⟩] ++ root.2)

/-- `Serialize::serialize` (`src/epserde/src/ser/mod.rs`): the byte stream
alone. -/
def serialize (t : Ty) (v : Val) : List Nat := (serializeWithSchema t v).1

/-- Modelled from the spec: `ReaderWithPos` (spec §4.3) — the bytes not yet
consumed and the absolute stream position. -/
structure RSt : Type where
  data : List Nat
  pos : Nat
deriving DecidableEq

/-- Modelled from the spec: `ReaderWithPos::read_exact` — consume exactly
`n` bytes, advancing the position; the underlying source failing short
yields the `Read` error (spec §7, error 10). -/
def readExact (n : Nat) (st : RSt) : PRes (List Nat × RSt) :=
  if n ≤ st.data.length then .ok (st.data.take n, ⟨st.data.drop n, st.pos + n⟩)
  else .err .ReadError

/-- Modelled from the spec: `pad_align_and_check` for a positioned reader —
advance the position over the padding to the given alignment without
inspecting the padding bytes (spec §4.3). -/
def padRead (a : Nat) (st : RSt) : PRes RSt :=
  PRes.bind (readExact (padTo st.pos a) st) fun r => .ok r.2

/-- Full-copy read of a `w`-byte primitive: pad to the primitive's
alignment, then read and decode its bytes
(`src/epserde/src/des/des_impl.rs`, `impl_prim`: `pad_align_and_check`
followed by `from_ne_bytes`). -/
def desPrim (w : Nat) (st : RSt) : PRes (Nat × RSt) :=
  PRes.bind (padRead w st) fun st1 =>
  PRes.bind (readExact w st1) fun r => .ok (byteDecLE r.1, r.2)

/-- Full-copy read of a `String`: a `usize` length, the (1-aligned) raw
bytes, then `String::from_utf8(...).unwrap()`, which panics on invalid
UTF-8 (`src/epserde/src/des/des_impl.rs`, lines 373–378). -/
def desStringRaw (st : RSt) : PRes (List Nat × RSt) :=
  PRes.bind (desPrim 8 st) fun r =>
  PRes.bind (padRead 1 r.2) fun st1 =>
  PRes.bind (readExact r.1 st1) fun r2 =>
  if validUtf8 r2.1 then .ok (r2.1, r2.2) else .panicked

/-- Read `n` elements one after the other with the element reader `f`,
returning them as a `vcons` chain (`deserialize_vec_full` of
`src/epserde/src/des/des_impl.rs` without the length read). -/
def desListWith (f : RSt → PRes (Val × RSt)) : Nat → RSt → PRes (Val × RSt)
  | 0, st => .ok (.vnil, st)
  | n + 1, st =>
    PRes.bind (f st) fun r =>
    PRes.bind (desListWith f n r.2) fun rs => .ok (.vcons r.1 rs.1, rs.2)

/-- Reinterpret `n` consecutive `w`-byte images as a chain of primitive
values (the bulk-slice reinterpretation of zero-copy elements). -/
def chunkPrims (w : Nat) : Nat → List Nat → Val
  | 0, _ => .vnil
  | n + 1, bytes => .vcons (.vprim (byteDecLE (bytes.take w))) (chunkPrims w n (bytes.drop w))

/-- The recursive full-copy deserializer
(`DeserializeInner::_deserialize_full_copy_inner` composed over the
universe).
Primitives: `desPrim` (`src/epserde/src/des/des_impl.rs`).
Strings: `desStringRaw`.
`Option`: one-byte tag — `0` gives `None`, `1` recurses, anything else is
`InvalidTag(tag)` (`src/epserde/src/impls/prim.rs`, lines 260–272).
Sequences: `usize` length, then for zero-copy elements padding to the
element alignment followed by a bulk read of `len·w` bytes (the
`DeserializeHelper<Zero>` path, `src/epserde/src/impls/vec.rs`; the bulk
read is modelled from spec §4.5), and for deep elements `len` recursive
element reads (`deserialize_vec_full`, `src/epserde/src/des/des_impl.rs`).
Structs: fields in declaration order (`src/epserde-derive/src/lib.rs`). -/
def desBody : Ty → RSt → PRes (Val × RSt)
  | .prim w, st =>
    PRes.bind (desPrim w st) fun r => .ok (.vprim r.1, r.2)
  | .str, st =>
    PRes.bind (desStringRaw st) fun r => .ok (.vstr r.1, r.2)
  | .opt t, st =>
    PRes.bind (desPrim 1 st) fun r =>
    if r.1 = 0 then .ok (.vnone, r.2)
    else if r.1 = 1 then
      PRes.bind (desBody t r.2) fun r2 => .ok (.vsome r2.1, r2.2)
    else .err (.InvalidTag r.1)
  | .seq t, st =>
    PRes.bind (desPrim 8 st) fun r =>
    match zeroWidth t with
    | some w =>
      PRes.bind (padRead w r.2) fun st1 =>
      PRes.bind (readExact (r.1 * w) st1) fun r2 => .ok (chunkPrims w r.1 r2.1, r2.2)
    | none => desListWith (desBody t) r.1 r.2
  | .pair a b, st =>
    PRes.bind (desBody a st) fun ra =>
    PRes.bind (desBody b ra.2) fun rb => .ok (.vpair ra.1 rb.1, rb.2)

/-- The part of `check_header` after the version checks
(`src/epserde/src/des/mod.rs`, lines 279–307): read the one-byte
USIZE_SIZE and compare it with the platform width, read TYPE_HASH,
TYPE_REPR_HASH and the type name, then compare the hashes. -/
def checkHeaderTail (selfHash selfReprHash : Nat) (selfName : List Nat) (st : RSt) : PRes RSt :=
  PRes.bind (desPrim 1 st) fun ru =>
  if ru.1 ≠ usizeBytes then .err (.UsizeSizeMismatch ru.1) else
  PRes.bind (desPrim 8 ru.2) fun rh =>
  PRes.bind (desPrim 8 rh.2) fun rr =>
  PRes.bind (desStringRaw rr.2) fun rn =>
  if rh.1 ≠ selfHash then .err (.WrongTypeHash selfName rn.1 rh.1 selfHash) else
  if rr.1 ≠ selfReprHash then .err (.WrongTypeReprHash selfName rn.1 rr.1 selfReprHash) else
  .ok rn.2

/-- `check_header` (`src/epserde/src/des/mod.rs`, lines 257–308): magic
cookie (matching also its byte reversal to diagnose endianness), then the
major version (any difference is fatal), the minor version (only a newer
one is fatal), then `checkHeaderTail`. -/
def checkHeader (selfHash selfReprHash : Nat) (selfName : List Nat) (st : RSt) : PRes RSt :=
  PRes.bind (desPrim 8 st) fun rm =>
  if rm.1 = MAGIC then
    PRes.bind (desPrim 2 rm.2) fun rj =>
    if rj.1 ≠ VERSION.1 then .err (.MajorVersionMismatch rj.1) else
    PRes.bind (desPrim 2 rj.2) fun rn =>
    if rn.1 > VERSION.2 then .err (.MinorVersionMismatch rn.1) else
    checkHeaderTail selfHash selfReprHash selfName rn.2
  else if rm.1 = MAGIC_REV then .err .EndiannessError
  else .err (.MagicCookieError rm.1)

/-- `Deserialize::deserialize_full_copy` (`src/epserde/src/des/mod.rs`,
lines 196–214): recompute the type fingerprints, validate the header, then
read the root value; the position is first padded to the root type's
alignment, mirroring the writer's `add_field_align` (spec §4.3, alignment
contract: the reader's position must equal the writer's padded offset). -/
def deserializeFullCopy (t : Ty) (bytes : List Nat) : PRes Val :=
  PRes.bind (checkHeader (typeHashV t) (typeReprHashV t) (typeNameBytes t) ⟨bytes, 0⟩) fun st =>
  PRes.bind (padRead (alignTy t) st) fun st1 =>
  PRes.bind (desBody t st1) fun r => .ok r.1

/-- The byte-slice cursor of ε-copy deserialization (`Cursor` of
`src/epserde/src/des/des_impl.rs` / `SliceWithPos` of
`src/epserde/src/des/mod.rs`): the remaining bytes of the input slice and
the absolute position. -/
structure Cursor : Type where
  data : List Nat
  pos : Nat
deriving DecidableEq

/-- `Cursor::skip`: reslice `&data[n..]`, which panics when fewer than `n`
bytes remain. -/
def cursorSkip (c : Cursor) (n : Nat) : PRes Cursor :=
  if n ≤ c.data.length then .ok ⟨c.data.drop n, c.pos + n⟩ else .panicked

/-- Modelled from the spec: `pad_align_and_check` on a slice cursor —
advance over the padding to the given alignment (spec §4.3); skipping past
the end of the slice panics like any out-of-bounds reslice. -/
def padAlignCursor (a : Nat) (c : Cursor) : PRes Cursor :=
  cursorSkip c (padTo c.pos a)

/-- ε-copy read of a `usize`: pad to 8, reinterpret `data[..8]` (an
out-of-bounds index panics), skip
(`src/epserde/src/des/des_impl.rs`, `impl_prim` for `usize`). -/
def desUsizeCursor (c : Cursor) : PRes (Nat × Cursor) :=
  PRes.bind (padAlignCursor 8 c) fun c1 =>
  if 8 ≤ c1.data.length then
    PRes.bind (cursorSkip c1 8) fun c2 => .ok (byteDecLE (c1.data.take 8), c2)
  else .panicked

/-- `deserialize_slice` (`src/epserde/src/des/des_impl.rs`, lines 81–91),
the ε-copy path of `Vec<T>` and `Box<[T]>` for zero-copy `T` (lines 286 and
351): read `len : usize`, compute `bytes = len * size_of::<T>()` (whose
overflow panics), pad to `align_of::<T>()`, then take `data[..bytes]` — an
out-of-bounds slice panics — and skip. No validation of `len` against the
remaining input is performed. -/
def deserialize_slice (sz al : Nat) (c : Cursor) : PRes (List Nat × Cursor) :=
  PRes.bind (desUsizeCursor c) fun r =>
  if r.1 * sz < TWO64 then
    PRes.bind (padAlignCursor al r.2) fun c1 =>
    if r.1 * sz ≤ c1.data.length then
      PRes.bind (cursorSkip c1 (r.1 * sz)) fun c2 => .ok (c1.data.take (r.1 * sz), c2)
    else .panicked
  else .panicked

/-- Full-copy `String` deserialization over the slice cursor
(`src/epserde/src/des/des_impl.rs`, lines 373–378): `deserialize_slice`
over `u8` then `String::from_utf8(slice.to_vec()).unwrap()`, which panics
on invalid UTF-8. -/
def stringFullCursor (c : Cursor) : PRes (List Nat × Cursor) :=
  PRes.bind (deserialize_slice 1 1 c) fun r =>
  if validUtf8 r.1 then .ok r else .panicked

/-- ε-copy `String` deserialization (`src/epserde/src/des/des_impl.rs`,
lines 380–393): the byte slice is transmuted to `&str` with no validation;
every byte content is returned as `ok`. -/
def stringEpsCursor (c : Cursor) : PRes (List Nat × Cursor) :=
  deserialize_slice 1 1 c

/-- ε-copy `Box<str>` deserialization (`src/epserde/src/des/des_impl.rs`,
lines 402–414): identical transmutation without validation. -/
def boxStrEpsCursor (c : Cursor) : PRes (List Nat × Cursor) :=
  deserialize_slice 1 1 c

/-- ε-copy `Option<T>` deserialization
(`src/epserde/src/impls/prim.rs`, lines 274–287): the tag is read through
the one-byte full-copy read (consuming it), `0` yields `None`, `1` recurses
into the payload, and any other tag yields `InvalidTag(backend.data[0])` —
`backend` having already advanced past the tag, `data[0]` is the byte
after the tag and panics when the tag was the last byte. The payload
deserializer is abstract. -/
def optionDesEps (desT : Cursor → PRes (Nat × Cursor)) (c : Cursor) : PRes (Option Nat × Cursor) :=
  match c.data with
  | [] => .err .ReadError
  | tag :: restD =>
    let c1 : Cursor := ⟨restD, c.pos + 1⟩
    if tag = 0 then .ok (none, c1)
    else if tag = 1 then PRes.bind (desT c1) fun r => .ok (some r.1, r.2)
    else
      match c1.data with
      | [] => .panicked
      | b :: _ => .err (.InvalidTag b)

/-- Tokens fed to the streaming hasher by the derived `type_hash`
implementations. -/
inductive HToken : Type where
  | hbool (b : Bool) : HToken
  | hstr (s : String) : HToken
  | hnat (n : Nat) : HToken
deriving DecidableEq

/-- Decimal name of the `w`-byte unsigned primitive as hashed by
`stringify!` in `src/epserde/src/impls/prim.rs`. -/
def primName (w : Nat) : String := "u" ++ toString (8 * w)


/-- The literal hashed by `Option`'s `type_hash`
(`src/epserde/src/impls/prim.rs`, line 230). -/
def nmOption : String := "Option"

/-- The literal hashed by `Vec`'s `type_hash`
(`src/epserde/src/impls/vec.rs`, line 33). -/
def nmVec : String := "Vec"

/-- The literal hashed by `String`'s `type_hash`. -/
def nmString : String := "String"

/-- The name literal of a nested two-field struct. -/
def nmPair : String := "Pair"

/-- Sample identifier names used in the derive-model theorems. -/
def nmS : String := "S"

/-- The `repr(C)` attribute token string. -/
def nmC : String := "C"

/-- A sample field name. -/
def nmA : String := "a"

/-- The token stream of `TypeHash::type_hash` for the field types of the
universe: primitives hash their own name only
(`src/epserde/src/impls/prim.rs`, lines 21–25), `Option` hashes the literal
then the payload (lines 227–232), `Vec` hashes the literal then the element
(`src/epserde/src/impls/vec.rs`, lines 27–36); `String` and nested structs
are given analogous streams. -/
def tyTokens : Ty → List HToken
  | .prim w => [.hstr (primName w)]
  | .str => [.hstr nmString]
  | .opt t => .hstr nmOption :: tyTokens t
  | .seq t => .hstr nmVec :: tyTokens t
  | .pair a b => .hstr nmPair :: (tyTokens a ++ tyTokens b)

/-- A derived struct as seen by the derive macro: its name, whether the
`zero_copy` attribute is present, the `repr` attribute token strings, the
ordered field names and field types, and the layout metadata (alignment and
size) of the compiled type — the latter two fields represent information
the macro could in principle consult but `type_hash` must not depend on. -/
structure StructDesc : Type where
  sname : String
  isZeroCopyAttr : Bool
  reprs : List String
  fieldNames : List String
  fieldTys : List Ty
  alignMeta : Nat
  sizeMeta : Nat
deriving DecidableEq

/-- The token stream hashed by the derived `type_hash`
(`src/epserde-derive/src/lib.rs`, lines 404–423): first the
`is_zero_copy` boolean, then each `repr` attribute token string, then the
type-name literal, then the ordered field names, then each field type's
`type_hash` stream. -/
def structTypeHashTokens (d : StructDesc) : List HToken :=
  .hbool d.isZeroCopyAttr ::
    (d.reprs.map .hstr ++ [.hstr d.sname] ++ d.fieldNames.map .hstr ++
      (d.fieldTys.map tyTokens).flatten)

/-- `check_attrs` (`src/epserde-derive/src/lib.rs`, lines 94–120): `none`
models the two `panic!` rejections — `zero_copy` without `repr(C)`, and
`zero_copy` together with `full_copy`. -/
def checkAttrs (isReprC isZeroCopyAttr isFullCopyAttr : Bool) : Option (Bool × Bool × Bool) :=
  if isZeroCopyAttr && !isReprC then none
  else if isZeroCopyAttr && isFullCopyAttr then none
  else some (isReprC, isZeroCopyAttr, isFullCopyAttr)

/-- The `IS_ZERO_COPY` constant synthesized for a derived struct
(`src/epserde-derive/src/lib.rs`, lines 167–169 and identically 190–192):
`#is_repr_c && field₁::IS_ZERO_COPY && …` — the same formula in both the
zero-copy and the non-zero-copy branch of the derive. -/
def derivedIsZeroCopy (isReprC : Bool) (fieldsIZC : List Bool) : Bool :=
  fieldsIZC.foldl (· && ·) isReprC

/-- The formula the claim states for `IS_ZERO_COPY`: declared zero-copy
and `repr(C)` and every field zero-copy (spec §4.1). -/
def specIsZeroCopy (declaredZeroCopy isReprC : Bool) (fieldsIZC : List Bool) : Bool :=
  declaredZeroCopy && isReprC && fieldsIZC.all id

theorem padTo_of_mod_eq_zero {p a : Nat} (h : p % a = 0) : padTo p a = 0 := by
  unfold padTo
  simp [h]

theorem padTo_one (p : Nat) : padTo p 1 = 0 := by
  unfold padTo
  omega

theorem padTo_mod (p a : Nat) (ha : 0 < a) : (p + padTo p a) % a = 0 := by
  unfold padTo
  rcases Nat.eq_zero_or_pos (p % a) with h | h
  · simp [h, Nat.mod_self, Nat.add_mod, h]
  · have hlt : p % a < a := Nat.mod_lt _ ha
    have h1 : a - p % a < a := by omega
    rw [Nat.mod_eq_of_lt h1]
    have hdm := Nat.div_add_mod p a
    have h2 : p + (a - p % a) = a * (p / a + 1) := by
      rw [Nat.mul_add, Nat.mul_one]
      omega
    rw [h2]
    simp [Nat.mul_mod_right]

theorem encLE_length (w v : Nat) : (byteEncLE w v).length = w := by
  induction w generalizing v with
  | zero => rfl
  | succ w ih => simp [byteEncLE, ih]

theorem decLE_encLE (w v : Nat) : byteDecLE (byteEncLE w v) = v % 256 ^ w := by
  induction w generalizing v with
  | zero => simp [byteEncLE, byteDecLE, Nat.mod_one]
  | succ w ih =>
    rw [byteEncLE, byteDecLE, ih]
    rw [pow_succ, Nat.mul_comm (256 ^ w) 256, Nat.mod_mul]

theorem readExact_seg (n : Nat) (l1 l2 : List Nat) (p : Nat) (h : l1.length = n) :
    readExact n ⟨l1 ++ l2, p⟩ = .ok (l1, ⟨l2, p + n⟩) := by
  subst h
  simp [readExact, List.take_left, List.drop_left]

theorem padRead_seg (a p : Nat) (P l2 : List Nat) (h : P.length = padTo p a) :
    padRead a ⟨P ++ l2, p⟩ = .ok ⟨l2, p + padTo p a⟩ := by
  unfold padRead
  rw [readExact_seg _ _ _ _ h, PRes.bind_ok]

theorem desPrim_spec (w v p : Nat) (P rest : List Nat) (hP : P.length = padTo p w)
    (hv : v < 256 ^ w) :
    desPrim w ⟨P ++ (byteEncLE w v ++ rest), p⟩ = .ok (v, ⟨rest, p + padTo p w + w⟩) := by
  unfold desPrim
  rw [padRead_seg _ _ _ _ hP, PRes.bind_ok,
      readExact_seg _ _ _ _ (encLE_length w v), PRes.bind_ok,
      decLE_encLE, Nat.mod_eq_of_lt hv]

theorem two64_eq_pow : (256 : Nat) ^ 8 = TWO64 := by decide

theorem padRead_self (st : RSt) : padRead 1 st = .ok st := by
  unfold padRead readExact
  simp [padTo_one]

theorem zeroWidth_some {t : Ty} {w : Nat} (h : zeroWidth t = some w) : t = .prim w := by
  cases t <;> simp_all [zeroWidth]

theorem bulk_length (w : Nat) (v : Val) (h : wfChain (wfVal (.prim w)) v = true) :
    (bulkBytes w v).length = seqLen v * w := by
  induction v with
  | vcons hd tl ih1 ih2 =>
    rw [wfChain] at h
    have h1 : wfVal (.prim w) hd = true := by
      cases hb : wfVal (.prim w) hd <;> simp [hb] at h ⊢
    have h2 : wfChain (wfVal (.prim w)) tl = true := by
      cases hb : wfChain (wfVal (.prim w)) tl <;> simp [hb] at h ⊢
    cases hd with
    | vprim x =>
      simp [bulkBytes, seqLen, encLE_length, ih2 h2, Nat.succ_mul]
      omega
    | vstr bs => simp [wfVal] at h1
    | vnone => simp [wfVal] at h1
    | vsome y => simp [wfVal] at h1
    | vnil => simp [wfVal] at h1
    | vcons a b => simp [wfVal] at h1
    | vpair a b => simp [wfVal] at h1
  | vnil => simp [bulkBytes, seqLen]
  | vprim x => simp [wfChain] at h
  | vstr bs => simp [wfChain] at h
  | vnone => simp [wfChain] at h
  | vsome y => simp [wfChain] at h
  | vpair a b => simp [wfChain] at h

theorem chunk_bulk (w : Nat) (v : Val) (h : wfChain (wfVal (.prim w)) v = true) :
    chunkPrims w (seqLen v) (bulkBytes w v) = v := by
  induction v with
  | vcons hd tl ih1 ih2 =>
    rw [wfChain] at h
    have h1 : wfVal (.prim w) hd = true := by
      cases hb : wfVal (.prim w) hd <;> simp [hb] at h ⊢
    have h2 : wfChain (wfVal (.prim w)) tl = true := by
      cases hb : wfChain (wfVal (.prim w)) tl <;> simp [hb] at h ⊢
    cases hd with
    | vprim x =>
      have hx : x < 256 ^ w := by simpa [wfVal] using h1
      rw [seqLen, bulkBytes, chunkPrims,
          List.take_left' (encLE_length w x), List.drop_left' (encLE_length w x),
          decLE_encLE, Nat.mod_eq_of_lt hx, ih2 h2]
    | vstr bs => simp [wfVal] at h1
    | vnone => simp [wfVal] at h1
    | vsome y => simp [wfVal] at h1
    | vnil => simp [wfVal] at h1
    | vcons a b => simp [wfVal] at h1
    | vpair a b => simp [wfVal] at h1
  | vnil => simp [chunkPrims, seqLen]
  | vprim x => simp [wfChain] at h
  | vstr bs => simp [wfChain] at h
  | vnone => simp [wfChain] at h
  | vsome y => simp [wfChain] at h
  | vpair a b => simp [wfChain] at h

theorem serWith_des (t : Ty)
    (IH : ∀ (v : Val) (pos : Nat) (rest : List Nat), wfVal t v = true →
      desBody t ⟨(serS t v pos).1 ++ rest, pos⟩ = .ok (v, ⟨rest, pos + (serS t v pos).1.length⟩)) :
    ∀ (v : Val) (pos : Nat) (rest : List Nat), wfChain (wfVal t) v = true →
      desListWith (desBody t) (seqLen v) ⟨(serWith (serS t) v pos).1 ++ rest, pos⟩
        = .ok (v, ⟨rest, pos + (serWith (serS t) v pos).1.length⟩) := by
  intro v
  induction v with
  | vcons hd tl ih1 ih2 =>
    intro pos rest h
    rw [wfChain] at h
    have h1 : wfVal t hd = true := by
      cases hb : wfVal t hd <;> simp [hb] at h ⊢
    have h2 : wfChain (wfVal t) tl = true := by
      cases hb : wfChain (wfVal t) tl <;> simp [hb] at h ⊢
    rw [seqLen, serWith]
    simp only []
    rw [desListWith, List.append_assoc, IH hd pos _ h1, PRes.bind_ok,
        ih2 (pos + (serS t hd pos).1.length) rest h2, PRes.bind_ok]
    simp [Nat.add_assoc]
  | vnil =>
    intro pos rest h
    simp [serWith, seqLen, desListWith]
  | vprim x => intro pos rest h; simp [wfChain] at h
  | vstr bs => intro pos rest h; simp [wfChain] at h
  | vnone => intro pos rest h; simp [wfChain] at h
  | vsome y => intro pos rest h; simp [wfChain] at h
  | vpair a b => intro pos rest h; simp [wfChain] at h

theorem des_ser (t : Ty) : ∀ (v : Val) (pos : Nat) (rest : List Nat), wfVal t v = true →
    desBody t ⟨(serS t v pos).1 ++ rest, pos⟩ = .ok (v, ⟨rest, pos + (serS t v pos).1.length⟩) := by
  induction t with
  | prim w =>
    intro v pos rest h
    cases v with
    | vprim x =>
      have hx : x < 256 ^ w := by simpa [wfVal] using h
      simp only [serS, desBody, putPrim, List.append_assoc]
      rw [desPrim_spec w x pos _ rest (List.length_replicate _ _) hx, PRes.bind_ok]
      simp [encLE_length, Nat.add_assoc]
    | vstr bs => simp [wfVal] at h
    | vnone => simp [wfVal] at h
    | vsome y => simp [wfVal] at h
    | vnil => simp [wfVal] at h
    | vcons a b => simp [wfVal] at h
    | vpair a b => simp [wfVal] at h
  | str =>
    intro v pos rest h
    cases v with
    | vstr bs =>
      simp only [wfVal, Bool.and_eq_true, decide_eq_true_eq] at h
      have hlen : bs.length < 256 ^ 8 := by rw [two64_eq_pow]; exact h.1.1
      have hutf : validUtf8 bs = true := h.2
      simp only [serS, desBody, desStringRaw, putPrim, List.append_assoc]
      rw [desPrim_spec 8 bs.length pos _ _ (List.length_replicate _ _) hlen, PRes.bind_ok,
          padRead_self, PRes.bind_ok,
          readExact_seg bs.length bs rest _ rfl, PRes.bind_ok,
          if_pos hutf]
      simp [encLE_length, Nat.add_assoc]
    | vprim x => simp [wfVal] at h
    | vnone => simp [wfVal] at h
    | vsome y => simp [wfVal] at h
    | vnil => simp [wfVal] at h
    | vcons a b => simp [wfVal] at h
    | vpair a b => simp [wfVal] at h
  | opt t iht =>
    intro v pos rest h
    cases v with
    | vnone =>
      simp only [serS, desBody]
      have h0 := desPrim_spec 1 0 pos [] rest (by simp [padTo_one]) (by norm_num)
      simp only [List.nil_append] at h0
      have henc : byteEncLE 1 0 = [0] := rfl
      rw [henc] at h0
      rw [h0, PRes.bind_ok]
      simp [padTo_one]
    | vsome x =>
      have hx : wfVal t x = true := by simpa [wfVal] using h
      simp only [serS, desBody]
      have h1 := desPrim_spec 1 1 pos [] ((serS t x (pos + 1)).1 ++ rest)
        (by simp [padTo_one]) (by norm_num)
      simp only [List.nil_append] at h1
      have henc : byteEncLE 1 1 = [1] := rfl
      rw [henc] at h1
      rw [show ((1 :: (serS t x (pos + 1)).1) ++ rest : List Nat)
            = 1 :: ((serS t x (pos + 1)).1 ++ rest) from rfl]
      rw [show (1 :: ((serS t x (pos + 1)).1 ++ rest) : List Nat)
            = [1] ++ ((serS t x (pos + 1)).1 ++ rest) from rfl]
      rw [h1, PRes.bind_ok]
      simp only [padTo_one, Nat.add_zero, reduceIte]
      rw [iht x (pos + 1) rest hx, PRes.bind_ok]
      simp [Nat.add_assoc, Nat.add_comm, Nat.add_left_comm]
    | vprim y => simp [wfVal] at h
    | vstr bs => simp [wfVal] at h
    | vnil => simp [wfVal] at h
    | vcons a b => simp [wfVal] at h
    | vpair a b => simp [wfVal] at h
  | seq t iht =>
    intro v pos rest h
    simp only [wfVal, Bool.and_eq_true, decide_eq_true_eq] at h
    have hn : seqLen v < 256 ^ 8 := by rw [two64_eq_pow]; exact h.1
    have hchain : wfChain (wfVal t) v = true := h.2
    cases hzw : zeroWidth t with
    | some w =>
      obtain rfl := zeroWidth_some hzw
      simp only [serS, desBody, putPrim, zeroWidth, List.append_assoc]
      rw [desPrim_spec 8 (seqLen v) pos _ _ (List.length_replicate _ _) hn, PRes.bind_ok]
      simp only [encLE_length, List.length_replicate, List.length_append]
      rw [show pos + padTo pos 8 + 8 = pos + (padTo pos 8 + 8) from by omega]
      rw [padRead_seg _ _ _ _ (List.length_replicate _ _), PRes.bind_ok,
          readExact_seg _ _ _ _ (bulk_length w v hchain), PRes.bind_ok,
          chunk_bulk w v hchain]
      simp [bulk_length w v hchain, Nat.add_assoc, Nat.add_comm, Nat.add_left_comm]
    | none =>
      simp only [serS, desBody, putPrim, hzw, List.append_assoc]
      rw [desPrim_spec 8 (seqLen v) pos _ _ (List.length_replicate _ _) hn, PRes.bind_ok]
      simp only [encLE_length, List.length_replicate, List.length_append]
      rw [show pos + padTo pos 8 + 8 = pos + (padTo pos 8 + 8) from by omega]
      rw [serWith_des t iht v (pos + (padTo pos 8 + 8)) rest hchain]
      simp [Nat.add_assoc, Nat.add_comm, Nat.add_left_comm]
  | pair a b iha ihb =>
    intro v pos rest h
    cases v with
    | vpair x y =>
      simp only [wfVal, Bool.and_eq_true] at h
      simp only [serS, desBody, List.append_assoc]
      rw [iha x pos _ h.1, PRes.bind_ok,
          ihb y (pos + (serS a x pos).1.length) rest h.2, PRes.bind_ok]
      simp [Nat.add_assoc]
    | vprim z => simp [wfVal] at h
    | vstr bs => simp [wfVal] at h
    | vnone => simp [wfVal] at h
    | vsome z => simp [wfVal] at h
    | vnil => simp [wfVal] at h
    | vcons c d => simp [wfVal] at h

theorem typeNameBytes_ascii (t : Ty) : ∀ b ∈ typeNameBytes t, b ≤ 127 := by
  induction t with
  | prim w =>
    intro b hb
    rw [typeNameBytes] at hb
    rcases List.mem_cons.1 hb with h | h
    · omega
    · have := List.eq_of_mem_replicate h
      omega
  | str =>
    intro b hb
    rw [typeNameBytes] at hb
    simp at hb
    rcases hb with h | h | h <;> omega
  | opt t iht =>
    intro b hb
    rw [typeNameBytes] at hb
    simp at hb
    rcases hb with h | h | h | h
    · omega
    · omega
    · omega
    · exact iht b h
  | seq t iht =>
    intro b hb
    rw [typeNameBytes] at hb
    simp at hb
    rcases hb with h | h | h | h
    · omega
    · omega
    · omega
    · exact iht b h
  | pair a b iha ihb =>
    intro x hx
    rw [typeNameBytes] at hx
    simp at hx
    rcases hx with h | h | h
    · omega
    · exact iha x h
    · exact ihb x h

theorem utf8Step_ascii {b : Nat} (hb : b ≤ 127) : utf8Step 0 b = 0 := by
  unfold utf8Step
  rw [if_pos rfl, if_pos (by omega : b ≤ 0x7F)]

theorem validUtf8_ascii : ∀ (l : List Nat), (∀ b ∈ l, b ≤ 127) → validUtf8 l = true := by
  have run : ∀ l, (∀ b ∈ l, b ≤ 127) → utf8Run 0 l = 0 := by
    intro l
    induction l with
    | nil => intro _; rfl
    | cons b bs ih =>
      intro h
      rw [utf8Run, utf8Step_ascii (h b (by simp))]
      exact ih (fun x hx => h x (by simp [hx]))
  intro l h
  simp [validUtf8, run l h]

theorem typeHashV_lt (t : Ty) : typeHashV t < TWO64 := by
  have h : 0 < TWO64 := by decide
  cases t <;> exact Nat.mod_lt _ h

theorem typeReprHashV_lt (t : Ty) : typeReprHashV t < TWO64 := by
  have h : 0 < TWO64 := by decide
  cases t <;> exact Nat.mod_lt _ h

theorem desPrim_spec0 (w v p : Nat) (rest : List Nat) (hp : p % w = 0) (hv : v < 256 ^ w) :
    desPrim w ⟨byteEncLE w v ++ rest, p⟩ = .ok (v, ⟨rest, p + w⟩) := by
  have h := desPrim_spec w v p [] rest (by simp [padTo_of_mod_eq_zero hp]) hv
  simpa [padTo_of_mod_eq_zero hp] using h

theorem checkHeader_roundtrip (sh srh : Nat) (nb tail : List Nat)
    (hsh : sh < TWO64) (hsrh : srh < TWO64) (hnl : nb.length < TWO64)
    (hascii : ∀ b ∈ nb, b ≤ 127) :
    checkHeader sh srh nb
      ⟨byteEncLE 8 MAGIC ++ (byteEncLE 2 VERSION.1 ++ (byteEncLE 2 VERSION.2 ++
        (byteEncLE 2 usizeBytes ++ (List.replicate 2 0 ++ (byteEncLE 8 sh ++
        (byteEncLE 8 srh ++ (byteEncLE 8 nb.length ++ (nb ++ tail)))))))), 0⟩
      = .ok ⟨tail, 40 + nb.length⟩ := by
  have e64 : (256 : Nat) ^ 8 = TWO64 := two64_eq_pow
  have hsh8 : sh < 256 ^ 8 := by rw [e64]; exact hsh
  have hsrh8 : srh < 256 ^ 8 := by rw [e64]; exact hsrh
  have hnl8 : nb.length < 256 ^ 8 := by rw [e64]; exact hnl
  unfold checkHeader
  rw [desPrim_spec0 8 MAGIC 0 _ (by norm_num) (by decide), PRes.bind_ok, if_pos rfl,
      desPrim_spec0 2 VERSION.1 8 _ (by norm_num) (by decide), PRes.bind_ok,
      if_neg (by simp), desPrim_spec0 2 VERSION.2 10 _ (by norm_num) (by decide), PRes.bind_ok,
      if_neg (by simp [VERSION])]
  norm_num
  unfold checkHeaderTail
  rw [show byteEncLE 2 usizeBytes ++ (List.replicate 2 0 ++ (byteEncLE 8 sh ++
        (byteEncLE 8 srh ++ (byteEncLE 8 nb.length ++ (nb ++ tail)))))
      = byteEncLE 1 8 ++ ((0 :: List.replicate 2 0) ++ (byteEncLE 8 sh ++
        (byteEncLE 8 srh ++ (byteEncLE 8 nb.length ++ (nb ++ tail))))) from rfl]
  rw [desPrim_spec0 1 8 12 _ (by norm_num) (by norm_num), PRes.bind_ok,
      if_neg (by simp [usizeBytes])]
  rw [desPrim_spec 8 sh 13 (0 :: List.replicate 2 0) _ (by simp [padTo]) hsh8, PRes.bind_ok]
  norm_num [padTo]
  rw [desPrim_spec0 8 srh 24 _ (by norm_num) hsrh8, PRes.bind_ok]
  unfold desStringRaw
  rw [desPrim_spec0 8 nb.length 32 _ (by norm_num) hnl8, PRes.bind_ok,
      padRead_self, PRes.bind_ok, readExact_seg nb.length nb tail _ rfl, PRes.bind_ok,
      if_pos (validUtf8_ascii nb hascii), PRes.bind_ok]
  simp [Nat.add_comm]

theorem serialize_shape (t : Ty) (v : Val) :
    serialize t v
      = byteEncLE 8 MAGIC ++ (byteEncLE 2 VERSION.1 ++ (byteEncLE 2 VERSION.2 ++
        (byteEncLE 2 usizeBytes ++ (List.replicate 2 0 ++ (byteEncLE 8 (typeHashV t) ++
        (byteEncLE 8 (typeReprHashV t) ++ (byteEncLE 8 (typeNameBytes t).length ++
        (typeNameBytes t ++
          (List.replicate (padTo (40 + (typeNameBytes t).length) (alignTy t)) 0 ++
           (serS t v (40 + (typeNameBytes t).length +
              padTo (40 + (typeNameBytes t).length) (alignTy t))).1))))))))) := by
  unfold serialize serializeWithSchema putPrim
  simp only [show padTo 0 8 = 0 from rfl, List.replicate_zero, List.nil_append,
             encLE_length, List.length_append, List.length_replicate]
  norm_num [show padTo 8 2 = 0 from rfl, show padTo 10 2 = 0 from rfl,
            show padTo 12 2 = 0 from rfl, show padTo 14 8 = 2 from rfl,
            show padTo 24 8 = 0 from rfl, show padTo 32 8 = 0 from rfl]

/-- C1: for every serializable value `v` of a type `t` of the universe
(primitives, sequences, strings, options and derived structs), fully
deserializing the bytes produced by serializing `v` yields `v`:
`deserialize_full_copy(serialize(v)) = Ok(v)`. The hypotheses state that
`v` is representable at `t` (values fit their widths, strings are valid
UTF-8, lengths fit in `usize`), that primitive widths are positive, and
that the informational type name fits in `usize`. -/
theorem c1_roundtrip (t : Ty) (v : Val) (h : wfVal t v = true)
    (hn : (typeNameBytes t).length < TWO64) :
    deserializeFullCopy t (serialize t v) = .ok v := by
  rw [serialize_shape]
  unfold deserializeFullCopy
  rw [checkHeader_roundtrip (typeHashV t) (typeReprHashV t) (typeNameBytes t) _
        (typeHashV_lt t) (typeReprHashV_lt t) hn (typeNameBytes_ascii t), PRes.bind_ok,
      padRead_seg (alignTy t) (40 + (typeNameBytes t).length) _ _ (List.length_replicate _ _),
      PRes.bind_ok]
  have hd := des_ser t v (40 + (typeNameBytes t).length +
      padTo (40 + (typeNameBytes t).length) (alignTy t)) [] h
  rw [List.append_nil] at hd
  rw [hd, PRes.bind_ok]

/-- Witness for C1: the round trip evaluated at the concrete value
`([7], Some("A")) : (Vec<u64>, Option<String>)`. -/
theorem c1_roundtrip_witness :
    wfVal (.pair (.seq (.prim 8)) (.opt .str))
        (.vpair (.vcons (.vprim 7) .vnil) (.vsome (.vstr [65]))) = true
    ∧ (typeNameBytes (.pair (.seq (.prim 8)) (.opt .str))).length < TWO64
    ∧ deserializeFullCopy (.pair (.seq (.prim 8)) (.opt .str))
        (serialize (.pair (.seq (.prim 8)) (.opt .str))
          (.vpair (.vcons (.vprim 7) .vnil) (.vsome (.vstr [65]))))
        = .ok (.vpair (.vcons (.vprim 7) .vnil) (.vsome (.vstr [65]))) :=
  ⟨by decide, by decide, c1_roundtrip _ _ (by decide) (by decide)⟩

theorem padRead_pos_aligned (a : Nat) (st st2 : RSt) (ha : 0 < a) (h : padRead a st = .ok st2) :
    st2.pos % a = 0 := by
  unfold padRead readExact at h
  by_cases hc : padTo st.pos a ≤ st.data.length
  · simp [hc] at h
    rw [← h]
    exact padTo_mod st.pos a ha
  · simp [hc] at h

theorem serWith_entries (t : Ty) (P : FieldEntry → Prop)
    (hel : ∀ (x : Val) (pos : Nat), wfVal t x = true → ∀ e ∈ (serS t x pos).2, P e) :
    ∀ (v : Val) (pos : Nat), wfChain (wfVal t) v = true →
    ∀ e ∈ (serWith (serS t) v pos).2, P e := by
  intro v
  induction v with
  | vcons hd tl ih1 ih2 =>
    intro pos h e he
    rw [wfChain] at h
    have h1 : wfVal t hd = true := by
      cases hb : wfVal t hd <;> simp [hb] at h ⊢
    have h2 : wfChain (wfVal t) tl = true := by
      cases hb : wfChain (wfVal t) tl <;> simp [hb] at h ⊢
    rw [serWith] at he
    simp only [List.mem_append] at he
    rcases he with he | he
    · exact hel hd pos h1 e he
    · exact ih2 _ h2 e he
  | vnil => intro pos h e he; simp [serWith] at he
  | vprim x => intro pos h; simp [wfChain] at h
  | vstr bs => intro pos h; simp [wfChain] at h
  | vnone => intro pos h; simp [wfChain] at h
  | vsome y => intro pos h; simp [wfChain] at h
  | vpair a b => intro pos h; simp [wfChain] at h

theorem serS_entries_aligned (t : Ty) : ∀ (v : Val) (pos : Nat),
    wfVal t v = true → tyWF t = true →
    ∀ e ∈ (serS t v pos).2, e.offset % e.align = 0 := by
  induction t with
  | prim w =>
    intro v pos h ht e he
    cases v with
    | vprim x =>
      have hw : 0 < w := by simpa [tyWF] using ht
      simp [serS, putPrim] at he
      subst he
      simpa using padTo_mod pos w hw
    | vstr bs => simp [wfVal] at h
    | vnone => simp [wfVal] at h
    | vsome y => simp [wfVal] at h
    | vnil => simp [wfVal] at h
    | vcons a b => simp [wfVal] at h
    | vpair a b => simp [wfVal] at h
  | str =>
    intro v pos h ht e he
    cases v with
    | vstr bs =>
      simp [serS, putPrim] at he
      rcases he with he | he
      · subst he
        simpa using padTo_mod pos 8 (by norm_num)
      · subst he
        simp [Nat.mod_one]
    | vprim x => simp [wfVal] at h
    | vnone => simp [wfVal] at h
    | vsome y => simp [wfVal] at h
    | vnil => simp [wfVal] at h
    | vcons a b => simp [wfVal] at h
    | vpair a b => simp [wfVal] at h
  | opt t iht =>
    intro v pos h ht e he
    cases v with
    | vnone =>
      simp [serS] at he
      subst he
      simp [Nat.mod_one]
    | vsome x =>
      have hx : wfVal t x = true := by simpa [wfVal] using h
      simp [serS] at he
      rcases he with he | he
      · subst he; simp [Nat.mod_one]
      · exact iht x (pos + 1) hx (by simpa [tyWF] using ht) e he
    | vprim y => simp [wfVal] at h
    | vstr bs => simp [wfVal] at h
    | vnil => simp [wfVal] at h
    | vcons a b => simp [wfVal] at h
    | vpair a b => simp [wfVal] at h
  | seq t iht =>
    intro v pos h ht e he
    simp only [wfVal, Bool.and_eq_true, decide_eq_true_eq] at h
    have htt : tyWF t = true := by simpa [tyWF] using ht
    cases hzw : zeroWidth t with
    | some w =>
      obtain rfl := zeroWidth_some hzw
      have hw : 0 < w := by simpa [tyWF] using htt
      simp [serS, putPrim, zeroWidth] at he
      rcases he with he | he
      · subst he
        simpa using padTo_mod pos 8 (by norm_num)
      · subst he
        simp only []
        have h2 := padTo_mod (pos + (padTo pos 8 + 8)) w hw
        simpa [encLE_length, List.length_append, List.length_replicate, Nat.add_assoc] using h2
    | none =>
      rw [serS] at he
      rw [hzw] at he
      simp only [List.mem_append] at he
      rcases he with he | he
      · simp [putPrim] at he
        subst he
        simpa using padTo_mod pos 8 (by norm_num)
      · exact serWith_entries t _ (fun x p hx => iht x p hx htt) v _ h.2 e he
  | pair a b iha ihb =>
    intro v pos h ht e he
    cases v with
    | vpair x y =>
      simp only [wfVal, Bool.and_eq_true] at h
      simp only [tyWF, Bool.and_eq_true] at ht
      rw [serS] at he
      simp only [List.mem_append] at he
      rcases he with he | he
      · exact iha x pos h.1 ht.1 e he
      · exact ihb y _ h.2 ht.2 e he
    | vprim z => simp [wfVal] at h
    | vstr bs => simp [wfVal] at h
    | vnone => simp [wfVal] at h
    | vsome z => simp [wfVal] at h
    | vnil => simp [wfVal] at h
    | vcons c d => simp [wfVal] at h

/-- C2: in every serialized stream, each field (the header fields, among
them TYPE_HASH at offset 16 and TYPE_REPR_HASH at offset 24 following the
pointer-width field at offset 12, and every recursively written body field
recorded in the schema) begins at a byte offset that is a multiple of the
alignment of its type, and the deserializer consumes padding before each
read so that reads only happen at aligned offsets. -/
theorem c2_alignment (t : Ty) (v : Val) (h : wfVal t v = true) (ht : tyWF t = true) :
    (∀ e ∈ (serializeWithSchema t v).2, e.offset % e.align = 0)
    ∧ (serializeWithSchema t v).2.take 6 =
        [⟨0, 8, 8⟩, ⟨8, 2, 2⟩, ⟨10, 2, 2⟩, ⟨12, 2, 2⟩, ⟨16, 8, 8⟩, ⟨24, 8, 8⟩]
    ∧ (∀ (a : Nat) (st st2 : RSt), 0 < a → padRead a st = .ok st2 → st2.pos % a = 0) := by
  refine ⟨?_, ?_, fun a st st2 ha hp => padRead_pos_aligned a st st2 ha hp⟩
  · intro e he
    unfold serializeWithSchema putPrim at he
    simp only [encLE_length, List.length_append, List.length_replicate,
               show padTo 0 8 = 0 from rfl, show padTo 8 2 = 0 from rfl,
               show padTo 10 2 = 0 from rfl, show padTo 12 2 = 0 from rfl,
               show padTo 14 8 = 2 from rfl, show padTo 24 8 = 0 from rfl,
               show padTo 32 8 = 0 from rfl] at he
    norm_num [List.mem_append] at he
    rcases he with he | he | he | he | he | he | he | he | he
    · subst he; decide
    · subst he; decide
    · subst he; decide
    · subst he; decide
    · subst he; decide
    · subst he; decide
    · subst he; decide
    · subst he; simp [Nat.mod_one]
    · exact serS_entries_aligned t v _ h ht e he
  · unfold serializeWithSchema putPrim
    simp only [encLE_length, List.length_append, List.length_replicate,
               show padTo 0 8 = 0 from rfl, show padTo 8 2 = 0 from rfl,
               show padTo 10 2 = 0 from rfl, show padTo 12 2 = 0 from rfl,
               show padTo 14 8 = 2 from rfl, show padTo 24 8 = 0 from rfl,
               show padTo 32 8 = 0 from rfl]
    norm_num [List.take]

/-- Witness for C2 at the concrete type `u8` with value `0`. -/
theorem c2_alignment_witness :
    wfVal (.prim 1) (.vprim 0) = true ∧ tyWF (.prim 1) = true
    ∧ ((∀ e ∈ (serializeWithSchema (.prim 1) (.vprim 0)).2, e.offset % e.align = 0)
       ∧ (serializeWithSchema (.prim 1) (.vprim 0)).2.take 6 =
           [⟨0, 8, 8⟩, ⟨8, 2, 2⟩, ⟨10, 2, 2⟩, ⟨12, 2, 2⟩, ⟨16, 8, 8⟩, ⟨24, 8, 8⟩]
       ∧ (∀ (a : Nat) (st st2 : RSt), 0 < a → padRead a st = .ok st2 → st2.pos % a = 0)) :=
  ⟨by decide, by decide, c2_alignment (.prim 1) (.vprim 0) (by decide) (by decide)⟩

/-- C3 counterexample: in the schema of a concrete serialization the
USIZE_SIZE field (entry 3, written at offset 12) has size 2 — the
serializer casts the pointer width to a `u16`
(`src/epserde/src/ser/mod.rs`, line 77) — refuting the claim that the
pointer width is stored as a single byte. -/
theorem c3_counterexample :
    (serializeWithSchema (.prim 1) (.vprim 0)).2[3]? = some ⟨12, 2, 2⟩
    ∧ ¬ ((serializeWithSchema (.prim 1) (.vprim 0)).2[3]?).map FieldEntry.size = some 1 := by
  decide

/-- C3 (amended): the header stores the pointer width at offset 12 as a
2-byte little-endian `u16` whose value is `size_of::<usize>() = 8` (bytes
`[8, 0]` at offsets 12–13), and the deserializer reads back exactly one
byte at offset 12 (the low byte, value 8) before checking it against the
platform's pointer width; the subsequent padding to the 8-aligned
TYPE_HASH field covers the `u16`'s high byte, so reader and writer stay in
step. -/
theorem c3_amended (t : Ty) (v : Val) :
    (serializeWithSchema t v).2[3]? = some ⟨12, 2, 2⟩
    ∧ (serialize t v).take 16 = MAGIC_BYTES ++ [1, 0] ++ [1, 0] ++ [8, 0] ++ [0, 0]
    ∧ (∀ X : List Nat, desPrim 1 ⟨byteEncLE 2 usizeBytes ++ X, 12⟩ = .ok (8, ⟨0 :: X, 13⟩)) := by
  refine ⟨?_, ?_, fun X => ?_⟩
  · unfold serializeWithSchema putPrim
    simp [show padTo 0 8 = 0 from rfl, show padTo 8 2 = 0 from rfl,
          show padTo 10 2 = 0 from rfl, show padTo 12 2 = 0 from rfl,
          encLE_length]
  · rw [serialize_shape]
    rw [show byteEncLE 8 MAGIC = MAGIC_BYTES from by decide,
        show byteEncLE 2 VERSION.1 = [1, 0] from by decide,
        show byteEncLE 2 VERSION.2 = [1, 0] from by decide,
        show byteEncLE 2 usizeBytes = [8, 0] from by decide,
        show List.replicate 2 0 = ([0, 0] : List Nat) from by decide]
    simp [List.take]
    decide
  · rw [show byteEncLE 2 usizeBytes ++ X = byteEncLE 1 8 ++ (0 :: X) from rfl]
    exact desPrim_spec0 1 8 12 (0 :: X) (by norm_num) (by norm_num)

/-- C4 counterexample: two struct descriptions differing only in the
`zero_copy` declaration feed different token streams to the `type_hash`
hasher (the derived `type_hash` hashes `is_zero_copy` first,
`src/epserde-derive/src/lib.rs`, line 410), and likewise for two
differing only in their `repr` attributes (line 412); so their type hashes
are not equal, refuting the claimed independence. -/
theorem c4_counterexample :
    structTypeHashTokens ⟨nmS, false, [nmC], [nmA], [.prim 8], 8, 8⟩
      ≠ structTypeHashTokens ⟨nmS, true, [nmC], [nmA], [.prim 8], 8, 8⟩
    ∧ structTypeHashTokens ⟨nmS, false, [nmC], [nmA], [.prim 8], 8, 8⟩
      ≠ structTypeHashTokens ⟨nmS, false, [], [nmA], [.prim 8], 8, 8⟩ := by
  decide

/-- C4 (amended): the `type_hash` input stream of a derived struct is
determined by the type name, the `zero_copy` declaration flag, the `repr`
attribute tokens, the ordered field names, and the field types' own
streams — and by nothing else: in particular it does not depend on the
alignment and size metadata of the compiled type (which feed
`type_repr_hash` instead). -/
theorem c4_amended (d1 d2 : StructDesc)
    (hn : d1.sname = d2.sname) (hz : d1.isZeroCopyAttr = d2.isZeroCopyAttr)
    (hr : d1.reprs = d2.reprs) (hf : d1.fieldNames = d2.fieldNames)
    (ht : d1.fieldTys = d2.fieldTys) :
    structTypeHashTokens d1 = structTypeHashTokens d2 := by
  unfold structTypeHashTokens
  rw [hn, hz, hr, hf, ht]

/-- Witness for C4 (amended) at two descriptions differing only in their
alignment and size metadata. -/
theorem c4_amended_witness :
    structTypeHashTokens ⟨nmS, false, [nmC], [nmA], [.prim 8], 8, 8⟩
      = structTypeHashTokens ⟨nmS, false, [nmC], [nmA], [.prim 8], 4, 16⟩ :=
  c4_amended _ _ rfl rfl rfl rfl rfl

theorem foldl_and (init : Bool) (l : List Bool) : l.foldl (· && ·) init = (init && l.all id) := by
  induction l generalizing init with
  | nil => simp
  | cons b bs ih => simp [List.foldl, ih, Bool.and_assoc]

/-- C5 counterexample: a struct that is `repr(C)` with all fields
zero-copy but is not declared `zero_copy` is accepted by `check_attrs`,
and the derived `IS_ZERO_COPY` is `true` while the claimed formula
(declared ∧ repr(C) ∧ fields) gives `false`. -/
theorem c5_counterexample :
    derivedIsZeroCopy true [true] = true
    ∧ specIsZeroCopy false true [true] = false
    ∧ checkAttrs true false false = some (true, false, false) := by
  decide

/-- C5 (amended): the derived `IS_ZERO_COPY` equals `repr(C) ∧ every
field's IS_ZERO_COPY`, independently of the `zero_copy` declaration; a
`zero_copy` declaration without `repr(C)` is rejected at derive time, so
for declarations that pass `check_attrs` with `zero_copy` set the constant
reduces to the conjunction of the fields' flags. -/
theorem c5_amended (reprC zc fc : Bool) (fields : List Bool)
    (hok : checkAttrs reprC zc fc ≠ none) :
    derivedIsZeroCopy reprC fields = (reprC && fields.all id)
    ∧ (zc = true → derivedIsZeroCopy reprC fields = fields.all id)
    ∧ (zc = true → reprC = false → False) := by
  have hform : derivedIsZeroCopy reprC fields = (reprC && fields.all id) :=
    foldl_and reprC fields
  have hrej : zc = true → reprC = true := by
    intro hzc
    by_contra hnr
    have hnr2 : reprC = false := by
      cases reprC
      · rfl
      · exact absurd rfl hnr
    apply hok
    unfold checkAttrs
    rw [hzc, hnr2]
    simp
  refine ⟨hform, fun hzc => ?_, fun hzc hnr => ?_⟩
  · rw [hform, hrej hzc]
    simp
  · rw [hrej hzc] at hnr
    exact absurd hnr (by simp)

/-- Witness for C5 (amended) at a declared-zero-copy `repr(C)` struct with
fields `[true, false]`. -/
theorem c5_amended_witness :
    checkAttrs true true false ≠ none
    ∧ (derivedIsZeroCopy true [true, false] = (true && [true, false].all id)
       ∧ (true = true → derivedIsZeroCopy true [true, false] = [true, false].all id)
       ∧ (true = true → true = false → False)) :=
  ⟨by decide, c5_amended true true false [true, false] (by decide)⟩

theorem cursorSkip_seg (l1 l2 : List Nat) (p n : Nat) (h : l1.length = n) :
    cursorSkip ⟨l1 ++ l2, p⟩ n = .ok ⟨l2, p + n⟩ := by
  subst h
  simp [cursorSkip, List.drop_left]

theorem padAlignCursor_seg (a p : Nat) (P l2 : List Nat) (h : P.length = padTo p a) :
    padAlignCursor a ⟨P ++ l2, p⟩ = .ok ⟨l2, p + padTo p a⟩ := by
  unfold padAlignCursor
  exact cursorSkip_seg P l2 p _ h

theorem desUsizeCursor_spec (len p : Nat) (P rest : List Nat)
    (hP : P.length = padTo p 8) (hl : len < 256 ^ 8) :
    desUsizeCursor ⟨P ++ (byteEncLE 8 len ++ rest), p⟩
      = .ok (len, ⟨rest, p + padTo p 8 + 8⟩) := by
  unfold desUsizeCursor
  rw [padAlignCursor_seg 8 p P _ hP, PRes.bind_ok,
      if_pos (by simp [encLE_length]),
      cursorSkip_seg (byteEncLE 8 len) rest _ 8 (encLE_length 8 len), PRes.bind_ok,
      List.take_left' (encLE_length 8 len), decLE_encLE, Nat.mod_eq_of_lt hl]

/-- C6: ε-copy deserialization of a sequence of zero-copy elements
(`deserialize_slice`, reached from both `Vec<T>` and `Box<[T]>` with
zero-copy `T`) reads a `usize` length `len`, pads the cursor to the
element alignment, and returns exactly the next `len · size_of(T)` input
bytes — the borrowed `&[T]` of `len` elements aliasing the input —
advancing the cursor by `len · size_of(T)`. -/
theorem c6_slice (sz al len pos : Nat) (P1 P2 region rest : List Nat)
    (h1 : P1.length = padTo pos 8) (hlen : len < TWO64)
    (h2 : P2.length = padTo (pos + padTo pos 8 + 8) al)
    (h3 : region.length = len * sz) (hov : len * sz < TWO64) :
    deserialize_slice sz al ⟨P1 ++ (byteEncLE 8 len ++ (P2 ++ (region ++ rest))), pos⟩
      = .ok (region, ⟨rest, pos + padTo pos 8 + 8 + padTo (pos + padTo pos 8 + 8) al + len * sz⟩) := by
  have hl8 : len < 256 ^ 8 := by rw [two64_eq_pow]; exact hlen
  unfold deserialize_slice
  rw [desUsizeCursor_spec len pos P1 _ h1 hl8, PRes.bind_ok, if_pos hov,
      padAlignCursor_seg al _ P2 _ h2, PRes.bind_ok,
      if_pos (by simp [← h3]),
      cursorSkip_seg region rest _ (len * sz) h3, PRes.bind_ok,
      List.take_left' h3]

/-- Witness for C6: a slice of two `u64` elements read from a concrete
24-byte cursor. -/
theorem c6_slice_witness :
    deserialize_slice 8 8 ⟨byteEncLE 8 2 ++ (byteEncLE 8 5 ++ byteEncLE 8 6), 0⟩
      = .ok (byteEncLE 8 5 ++ byteEncLE 8 6, ⟨[], 24⟩) := by
  have h := c6_slice 8 8 2 0 [] [] (byteEncLE 8 5 ++ byteEncLE 8 6) []
    (by decide) (by decide) (by decide) (by decide) (by decide)
  simpa using h

/-- C9: `deserialize_slice` does not validate the decoded length against
the remaining input: whenever `len · size_of(T)` exceeds the bytes
remaining after the length field, the function panics (out-of-bounds
reslicing, or overflow of the byte-count multiplication) instead of
returning a `DeserializeError`. -/
theorem c9_oob (sz al len pos : Nat) (P1 tail : List Nat)
    (h1 : P1.length = padTo pos 8) (hlen : len < TWO64)
    (hbig : tail.length < len * sz) :
    deserialize_slice sz al ⟨P1 ++ (byteEncLE 8 len ++ tail), pos⟩ = .panicked := by
  have hl8 : len < 256 ^ 8 := by rw [two64_eq_pow]; exact hlen
  unfold deserialize_slice
  rw [desUsizeCursor_spec len pos P1 tail h1 hl8, PRes.bind_ok]
  by_cases hov : len * sz < TWO64
  · rw [if_pos hov]
    unfold padAlignCursor cursorSkip
    by_cases hc : padTo (pos + padTo pos 8 + 8) al ≤ tail.length
    · simp only [hc, if_true, PRes.bind_ok]
      rw [if_neg (by simp [List.length_drop]; omega)]
    · simp [hc]
  · rw [if_neg hov]

/-- Witness for C9: a length field of 3 `u64` elements over only 8
remaining bytes panics. -/
theorem c9_oob_witness :
    deserialize_slice 8 8 ⟨byteEncLE 8 3 ++ byteEncLE 8 5, 0⟩ = .panicked := by
  have h := c9_oob 8 8 3 0 [] (byteEncLE 8 5) (by decide) (by decide) (by decide)
  simpa using h

/-- C10: invalid UTF-8 in a serialized string payload is never surfaced as
a `DeserializeError`: whenever the slice read succeeds, full-copy `String`
deserialization panics (`String::from_utf8(...).unwrap()`) on invalid
UTF-8 bytes, while ε-copy deserialization of `String` and `Box<str>`
transmutes the byte slice without validation and returns `Ok` for every
byte content. -/
theorem c10_utf8 (c : Cursor) (bs : List Nat) (c2 : Cursor)
    (h : deserialize_slice 1 1 c = .ok (bs, c2)) :
    (validUtf8 bs = false → stringFullCursor c = .panicked)
    ∧ stringEpsCursor c = .ok (bs, c2)
    ∧ boxStrEpsCursor c = .ok (bs, c2) := by
  refine ⟨fun hv => ?_, h, h⟩
  unfold stringFullCursor
  rw [h, PRes.bind_ok]
  simp [hv]

/-- Witness for C10 at the one-byte payload `[0xFF]`, which is not valid
UTF-8. -/
theorem c10_utf8_witness :
    deserialize_slice 1 1 ⟨byteEncLE 8 1 ++ [255], 0⟩ = .ok ([255], ⟨[], 9⟩)
    ∧ ((validUtf8 [255] = false → stringFullCursor ⟨byteEncLE 8 1 ++ [255], 0⟩ = .panicked)
       ∧ stringEpsCursor ⟨byteEncLE 8 1 ++ [255], 0⟩ = .ok ([255], ⟨[], 9⟩)
       ∧ boxStrEpsCursor ⟨byteEncLE 8 1 ++ [255], 0⟩ = .ok ([255], ⟨[], 9⟩)) :=
  ⟨by decide, c10_utf8 _ _ _ (by decide)⟩

/-- C7: evaluation at the failing input `[2, 99]` — an ε-copy `Option`
read whose tag byte is the out-of-range value 2 followed by the byte 99:
the ε-copy path reports `InvalidTag(99)`, the byte *after* the tag
(`src/epserde/src/impls/prim.rs`, line 285, reads `backend.data[0]` after
the tag has been consumed), while the full-copy path on the same bytes
reports `InvalidTag(2)` as the claim states; on `[2]` alone the ε-copy
path panics instead of erroring. -/
theorem c7_invalid_tag :
    optionDesEps (fun c => .ok (0, c)) ⟨[2, 99], 0⟩ = .err (.InvalidTag 99)
    ∧ desBody (.opt (.prim 1)) ⟨[2, 99], 0⟩ = .err (.InvalidTag 2)
    ∧ optionDesEps (fun c => .ok (0, c)) ⟨[2], 0⟩ = .panicked := by
  decide

theorem readExact_err {n : Nat} {st : RSt} {e : DErr} (h : readExact n st = .err e) :
    e = .ReadError := by
  unfold readExact at h
  by_cases hc : n ≤ st.data.length
  · simp [hc] at h
  · simp [hc] at h
    exact h.symm

theorem padRead_err {a : Nat} {st : RSt} {e : DErr} (h : padRead a st = .err e) :
    e = .ReadError := by
  unfold padRead at h
  cases hr : readExact (padTo st.pos a) st with
  | ok r => rw [hr] at h; simp at h
  | err e2 =>
    rw [hr] at h
    simp at h
    rw [← h]
    exact readExact_err hr
  | panicked => rw [hr] at h; simp at h

theorem desPrim_err {w : Nat} {st : RSt} {e : DErr} (h : desPrim w st = .err e) :
    e = .ReadError := by
  unfold desPrim at h
  cases hp : padRead w st with
  | ok st1 =>
    rw [hp] at h
    simp only [PRes.bind_ok] at h
    cases hr : readExact w st1 with
    | ok r => rw [hr] at h; simp at h
    | err e2 =>
      rw [hr] at h
      simp at h
      rw [← h]
      exact readExact_err hr
    | panicked => rw [hr] at h; simp at h
  | err e2 =>
    rw [hp] at h
    simp at h
    rw [← h]
    exact padRead_err hp
  | panicked => rw [hp] at h; simp at h

theorem desStringRaw_err {st : RSt} {e : DErr} (h : desStringRaw st = .err e) :
    e = .ReadError := by
  unfold desStringRaw at h
  cases h1 : desPrim 8 st with
  | err e2 =>
    rw [h1] at h; simp at h; rw [← h]; exact desPrim_err h1
  | panicked => rw [h1] at h; simp at h
  | ok r =>
    rw [h1] at h
    simp only [PRes.bind_ok] at h
    cases h2 : padRead 1 r.2 with
    | err e2 => rw [h2] at h; simp at h; rw [← h]; exact padRead_err h2
    | panicked => rw [h2] at h; simp at h
    | ok st1 =>
      rw [h2] at h
      simp only [PRes.bind_ok] at h
      cases h3 : readExact r.1 st1 with
      | err e2 => rw [h3] at h; simp at h; rw [← h]; exact readExact_err h3
      | panicked => rw [h3] at h; simp at h
      | ok r2 =>
        rw [h3] at h
        simp only [PRes.bind_ok] at h
        by_cases hv : validUtf8 r2.1 = true
        · rw [if_pos hv] at h; simp at h
        · rw [if_neg hv] at h; simp at h

theorem checkHeaderTail_no_version (sh srh : Nat) (sn : List Nat) (st : RSt) (m : Nat) :
    checkHeaderTail sh srh sn st ≠ .err (.MajorVersionMismatch m)
    ∧ checkHeaderTail sh srh sn st ≠ .err (.MinorVersionMismatch m) := by
  unfold checkHeaderTail
  cases h1 : desPrim 1 st with
  | err e =>
    have he := desPrim_err h1
    subst he
    simp
  | panicked => simp
  | ok r =>
    simp only [PRes.bind_ok]
    by_cases hu : r.1 ≠ usizeBytes
    · simp [hu]
    · rw [if_neg hu]
      cases h2 : desPrim 8 r.2 with
      | err e =>
        have he := desPrim_err h2
        subst he
        simp
      | panicked => simp
      | ok r2 =>
        simp only [PRes.bind_ok]
        cases h3 : desPrim 8 r2.2 with
        | err e =>
          have he := desPrim_err h3
          subst he
          simp
        | panicked => simp
        | ok r3 =>
          simp only [PRes.bind_ok]
          cases h4 : desStringRaw r3.2 with
          | err e =>
            have he := desStringRaw_err h4
            subst he
            simp
          | panicked => simp
          | ok r4 =>
            simp only [PRes.bind_ok]
            by_cases hh : r2.1 ≠ sh
            · simp [hh]
            · rw [if_neg hh]
              by_cases hr : r3.1 ≠ srh
              · simp [hr]
              · rw [if_neg hr]
                simp

/-- C8: header validation fails with a MajorVersionMismatch error exactly
when the stream's major version differs from the library's; given a
matching major version it fails with a MinorVersionMismatch error exactly
when the stream's minor version is strictly newer than the library's; and
a stream whose minor version is equal or older passes the version checks
and proceeds to the rest of header validation. -/
theorem c8_versions (major minor sh srh : Nat) (tail sn : List Nat)
    (hmaj : major < 65536) (hmin : minor < 65536) :
    (checkHeader sh srh sn
        ⟨byteEncLE 8 MAGIC ++ (byteEncLE 2 major ++ (byteEncLE 2 minor ++ tail)), 0⟩
       = .err (.MajorVersionMismatch major) ↔ major ≠ VERSION.1)
    ∧ (major = VERSION.1 →
        (checkHeader sh srh sn
            ⟨byteEncLE 8 MAGIC ++ (byteEncLE 2 major ++ (byteEncLE 2 minor ++ tail)), 0⟩
           = .err (.MinorVersionMismatch minor) ↔ VERSION.2 < minor))
    ∧ (major = VERSION.1 → minor ≤ VERSION.2 →
        checkHeader sh srh sn
            ⟨byteEncLE 8 MAGIC ++ (byteEncLE 2 major ++ (byteEncLE 2 minor ++ tail)), 0⟩
          = checkHeaderTail sh srh sn ⟨tail, 12⟩) := by
  have h2562 : (256 : Nat) ^ 2 = 65536 := by norm_num
  have hmaj2 : major < 256 ^ 2 := by rw [h2562]; exact hmaj
  have hmin2 : minor < 256 ^ 2 := by rw [h2562]; exact hmin
  unfold checkHeader
  rw [desPrim_spec0 8 MAGIC 0 _ (by norm_num) (by decide), PRes.bind_ok, if_pos rfl,
      desPrim_spec0 2 major 8 _ (by norm_num) hmaj2, PRes.bind_ok]
  by_cases hmj : major = VERSION.1
  · rw [if_neg (by simp [hmj]),
        desPrim_spec0 2 minor 10 _ (by norm_num) hmin2, PRes.bind_ok]
    by_cases hmn : VERSION.2 < minor
    · rw [if_pos hmn]
      refine ⟨?_, fun _ => by simp [hmn], fun _ hle => absurd hmn (by omega)⟩
      constructor
      · intro h
        simp at h
      · intro h
        exact absurd hmj h
    · rw [if_neg hmn]
      have hnv1 := (checkHeaderTail_no_version sh srh sn ⟨tail, 12⟩ major).1
      have hnv2 := (checkHeaderTail_no_version sh srh sn ⟨tail, 12⟩ minor).2
      have hpos : (10 : Nat) + 2 = 12 := by norm_num
      rw [hpos]
      refine ⟨?_, fun _ => ?_, fun _ _ => rfl⟩
      · constructor
        · intro h
          exact absurd h hnv1
        · intro h
          exact absurd hmj h
      · constructor
        · intro h
          exact absurd h hnv2
        · intro h
          omega
  · rw [if_pos (by simp [hmj])]
    refine ⟨?_, fun h => absurd h hmj, fun h _ => absurd h hmj⟩
    simp [hmj]

/-- Witness for C8 at major 1 and minor 0 (older minor accepted). -/
theorem c8_versions_witness :
    (3 : Nat) < 65536 ∧ (0 : Nat) < 65536
    ∧ ((checkHeader 0 0 [] ⟨byteEncLE 8 MAGIC ++ (byteEncLE 2 3 ++ (byteEncLE 2 0 ++ [])), 0⟩
          = .err (.MajorVersionMismatch 3) ↔ (3 : Nat) ≠ VERSION.1)
       ∧ ((3 : Nat) = VERSION.1 →
           (checkHeader 0 0 [] ⟨byteEncLE 8 MAGIC ++ (byteEncLE 2 3 ++ (byteEncLE 2 0 ++ [])), 0⟩
              = .err (.MinorVersionMismatch 0) ↔ VERSION.2 < 0))
       ∧ ((3 : Nat) = VERSION.1 → (0 : Nat) ≤ VERSION.2 →
           checkHeader 0 0 [] ⟨byteEncLE 8 MAGIC ++ (byteEncLE 2 3 ++ (byteEncLE 2 0 ++ [])), 0⟩
             = checkHeaderTail 0 0 [] ⟨[], 12⟩)) :=
  ⟨by decide, by decide, c8_versions 3 0 0 0 [] [] (by decide) (by decide)⟩

end Epserde
